import Mathlib

/-!
Shallow embedding of the `memdb` MVCC key-value store (`src/memdb.go`) and
proofs about its operations.  Machine `uint32` sequence numbers are modelled
as `Nat` with explicit `% 2^32` where the Go code can overflow; byte slices
are `List Nat`; the external skiplist index is modelled, where needed, as a
list ordered by the relevant comparator, following the contract stated in the
specification (§6).
-/

namespace Memdb

/-- An index item: byte payload plus MVCC stamps `bornSn`/`deadSn`
(`deadSn = 0` means live).  Mirrors `Item` in the source. -/
structure Item where
  key    : List Nat
  bornSn : Nat
  deadSn : Nat
deriving Repr, DecidableEq

/-- `bytes.Compare` on byte slices, the default key comparator
(`defaultKeyCmp` in the source): lexicographic, returning -1/0/1. -/
def bytesCompare : List Nat → List Nat → Int
  | [], [] => 0
  | [], _ :: _ => -1
  | _ :: _, [] => 1
  | a :: as, b :: bs =>
      if a < b then -1 else if b < a then 1 else bytesCompare as bs

/-- `newInsertCompare defaultKeyCmp`: key bytes first, `bornSn` as the
tie-breaker (translated from `newInsertCompare` in the source). -/
def insCmp (a b : Item) : Int :=
  let v := bytesCompare a.key b.key
  if v = 0 then (a.bornSn : Int) - (b.bornSn : Int) else v

/-- `newIterCompare defaultKeyCmp`: key bytes only (translated from
`newIterCompare` in the source). -/
def iterCmp (a b : Item) : Int :=
  bytesCompare a.key b.key

/-- `newExistCompare defaultKeyCmp`: nonequal (1) as soon as either operand
is tombstoned, else the key comparison (translated from `newExistCompare`). -/
def existCmp (a b : Item) : Int :=
  if a.deadSn ≠ 0 ∨ b.deadSn ≠ 0 then 1 else bytesCompare a.key b.key

/-! ### Snapshot iterator (`Iterator.skipUnwanted`, `SeekFirst`, `Seek`,
`Next`).  The underlying skiplist iterator is a cursor over the index
contents in index order; we model its remaining-items suffix as a list. -/

/-- The skip test from `Iterator.skipUnwanted`: an item is skipped when
`bornSn > snap.sn || (deadSn > 0 && deadSn <= snap.sn)`. -/
def skipTest (snapSn : Nat) (itm : Item) : Bool :=
  decide (itm.bornSn > snapSn) || (decide (itm.deadSn > 0) && decide (itm.deadSn ≤ snapSn))

/-- `Iterator.skipUnwanted`: advance the cursor past every item failing the
skip test (the `goto loop` in the source is a while loop). -/
def skipUnwanted (snapSn : Nat) (l : List Item) : List Item :=
  l.dropWhile (skipTest snapSn)

/-- Spec §3 visibility: an item is visible to snapshot `S` iff
`bornSn ≤ S.sn AND (deadSn = 0 OR deadSn > S.sn)`. -/
def visibleTo (snapSn : Nat) (itm : Item) : Bool :=
  decide (itm.bornSn ≤ snapSn) && (decide (itm.deadSn = 0) || decide (itm.deadSn > snapSn))

/-- A full iteration pass: `SeekFirst` (which calls `skipUnwanted`) followed
by repeated `Get`/`Next` (each `Next` calls `skipUnwanted`) until invalid;
returns the sequence of items the caller observes. -/
def iterAll (snapSn : Nat) (l : List Item) : List Item :=
  match h : skipUnwanted snapSn l with
  | [] => []
  | x :: rest =>
      x :: iterAll snapSn rest
termination_by l.length
decreasing_by
  have hle : (skipUnwanted snapSn l).length ≤ l.length :=
    (List.dropWhile_sublist _).length_le
  rw [h] at hle
  simp at hle
  omega

/-! ### `Writer.GetNode` -/

/-- Modelled from the spec: the skiplist iterator's `Seek` (§6, §4.2)
positions the cursor on the first entry whose key is ≥ the probe's key; the
entries still ahead of the cursor are the corresponding suffix of the index
contents (the skiplist itself is an external collaborator, not in `src/`). -/
def seekSuffix (probe : Item) (l : List Item) : List Item :=
  l.dropWhile (fun e => decide (iterCmp e probe < 0))

/-- The forward walk inside `Writer.GetNode`: advance while the next entry is
`iterCmp`-equal to the current one; return the last entry of the run. -/
def walkRun : Item → List Item → Item
  | curr, [] => curr
  | curr, next :: rest =>
      if iterCmp next curr = 0 then walkRun next rest else curr

/-- `Writer.GetNode` (translated from the source): `Seek` to the first entry
with key ≥ probe (`found` iff its key equals the probe's), walk forward to
the most recent version, return it iff its `deadSn` is 0. -/
def GetNode (probe : Item) (l : List Item) : Option Item :=
  match seekSuffix probe l with
  | [] => none
  | c :: rest =>
      if iterCmp c probe ≠ 0 then none
      else
        let curr := walkRun c rest
        if curr.deadSn ≠ 0 then none else some curr

/-- The run of index entries whose key is `iterCmp`-equal to the probe's. -/
def eqKeyRun (probe : Item) (l : List Item) : List Item :=
  l.filter (fun e => decide (iterCmp e probe = 0))

/-- The index order: entries sorted by `insCmp` (key, then `bornSn`). -/
def insSorted (l : List Item) : Prop :=
  l.Pairwise (fun a b => insCmp a b ≤ 0)

/-! ### Write path (`Writer.Put2`, `Writer.Delete2`, `Writer.DeleteNode`)
over a sequential model of the database. -/

/-- Insertion position by `insCmp` (keeps the index order invariant).  Part
of the skiplist model. -/
def insertSorted (x : Item) : List Item → List Item
  | [] => [x]
  | e :: rest =>
      if insCmp x e ≤ 0 then x :: e :: rest else e :: insertSorted x rest

/-- Modelled from the spec: `skiplist.Insert2` (§6) inserts the item unless
an entry equal under the duplicate comparator (`existCmp`) already exists;
returns the new contents and the `inserted` flag. -/
def Insert2 (x : Item) (l : List Item) : List Item × Bool :=
  if l.any (fun e => decide (existCmp e x = 0)) then (l, false)
  else (insertSorted x l, true)

/-- Physical removal of a node (`skiplist.DeleteNode`, modelled from the
spec §6): remove the node, reporting whether it was present. -/
def removeNode (n : Item) : List Item → List Item
  | [] => []
  | e :: rest => if e = n then rest else e :: removeNode n rest

/-- The deadSn CAS: overwrite the stamps of the given node in place. -/
def markDead (n : Item) (sn : Nat) : List Item → List Item
  | [] => []
  | e :: rest =>
      if e = n then { e with deadSn := sn } :: rest else e :: markDead n sn rest

/-- Sequential database state: index contents, `currSn`, live counter. -/
structure DBState where
  store  : List Item
  currSn : Nat
  count  : Int
deriving Repr, DecidableEq

/-- A fresh database (`NewWithConfig`): empty index, `currSn = 1`. -/
def initState : DBState :=
  { store := [], currSn := 1, count := 0 }

/-- `Writer.Put2` (translated from the source): stamp `bornSn := currSn`,
insert with `insCmp`/`existCmp`, bump `count` on success. -/
def Put2 (st : DBState) (key : List Nat) : DBState × Bool :=
  let x : Item := ⟨key, st.currSn, 0⟩
  let res := Insert2 x st.store
  let st2 := { st with
    store := res.1,
    count := if res.2 then st.count + 1 else st.count }
  (st2, res.2)

/-- Outcome of `Writer.DeleteNode`: which of the two success paths ran. -/
inductive DelPath where
  | fastPath   -- bornSn = currSn: physical removal
  | casPath    -- CAS deadSn 0 → currSn
  | failed
deriving Repr, DecidableEq

/-- `Writer.DeleteNode` (translated from the source): if the node was born
in the current sequence, physically remove it; otherwise CAS its `deadSn`
from 0 to `currSn`.  `count` is decremented on either success. -/
def DeleteNode (st : DBState) (n : Item) : DBState × DelPath :=
  if n.bornSn = st.currSn then
    if st.store.contains n then
      let st2 := { st with store := removeNode n st.store, count := st.count - 1 }
      (st2, DelPath.fastPath)
    else (st, DelPath.failed)
  else
    if n.deadSn = 0 then
      let st2 := { st with store := markDead n st.currSn st.store, count := st.count - 1 }
      (st2, DelPath.casPath)
    else (st, DelPath.failed)

/-- `Writer.Delete2` (translated from the source): locate the live node for
the key via `GetNode`, then `DeleteNode` it. -/
def Delete2 (st : DBState) (key : List Nat) : DBState × DelPath :=
  match GetNode ⟨key, 0, 0⟩ st.store with
  | none => (st, DelPath.failed)
  | some n => DeleteNode st n

/-- Operations a writer can issue (plus the `currSn` bump performed by
`MemDB.NewSnapshot`, which is what moves the database to a new sequence). -/
inductive Op where
  | put (key : List Nat)
  | del (key : List Nat)
  | newSnap
deriving Repr, DecidableEq

/-- Event counters for a run: successful inserts, first-time tombstone
transitions (CAS `deadSn : 0 → sn`), and same-sequence physical removals. -/
structure Tally where
  putsOk    : Nat
  casDeads  : Nat
  fastDeads : Nat
deriving Repr, DecidableEq

def Tally.init : Tally := ⟨0, 0, 0⟩

/-- One step of the sequential model. -/
def applyOp (st : DBState) (t : Tally) : Op → DBState × Tally
  | Op.put key =>
      let res := Put2 st key
      (res.1, if res.2 then { t with putsOk := t.putsOk + 1 } else t)
  | Op.del key =>
      let res := Delete2 st key
      (res.1,
        match res.2 with
        | DelPath.casPath => { t with casDeads := t.casDeads + 1 }
        | DelPath.fastPath => { t with fastDeads := t.fastDeads + 1 }
        | DelPath.failed => t)
  | Op.newSnap =>
      ({ st with currSn := (st.currSn + 1) % 2 ^ 32 }, t)

/-- Run a sequence of operations. -/
def runOps (st : DBState) (t : Tally) : List Op → DBState × Tally
  | [] => (st, t)
  | op :: rest =>
      let res := applyOp st t op
      runOps res.1 res.2 rest

/-! ### Reclamation (`MemDB.GC`, `MemDB.collectDead`) -/

/-- A dead snapshot awaiting reclamation: its stamp and its retired list
(`gclist`, node identifiers kept abstract). -/
structure DeadSnap where
  sn     : Nat
  gclist : List Nat
deriving Repr, DecidableEq

/-- GC-related state of the database: `lastGCSn`, `leastUnrefSn`, and the
dead-snapshot set (`gcsnapshots`), kept in ascending `sn` order. -/
structure GCState where
  lastGCSn     : Nat
  leastUnrefSn : Nat
  gcsnapshots  : List DeadSnap
deriving Repr, DecidableEq

/-- `MemDB.collectDead` (translated from the source): scan the dead-snapshot
set from the smallest stamp; for each snapshot with `sn ≤ leastUnrefSn`
enqueue its retired list on the collector channel and remove it; stop at the
first larger stamp.  Returns the remaining dead set and the enqueued lists
in order. -/
def collectDead (least : Nat) : List DeadSnap → List DeadSnap × List (List Nat)
  | [] => ([], [])
  | d :: rest =>
      if d.sn > least then (d :: rest, [])
      else
        let res := collectDead least rest
        (res.1, d.gclist :: res.2)

/-- `MemDB.GC` (translated from the source): a pass is suppressed unless
`leastUnrefSn` differs from `lastGCSn` and is positive; otherwise it records
`lastGCSn := leastUnrefSn` and promotes dead snapshots via `collectDead`. -/
def GC (st : GCState) : GCState × List (List Nat) :=
  if st.leastUnrefSn ≠ st.lastGCSn ∧ st.leastUnrefSn > 0 then
    let res := collectDead st.leastUnrefSn st.gcsnapshots
    let st2 := { st with
      lastGCSn := st.leastUnrefSn
      gcsnapshots := res.1 }
    (st2, res.2)
  else (st, [])

/-! ### `MemDB.setLeastUnrefSn` -/

/-- `MemDB.setLeastUnrefSn` (translated from the source): seek to the first
(smallest-`sn`) live snapshot; when one exists store its `sn − 1`, otherwise
leave `leastUnrefSn` unchanged.  `liveSns` is the live-snapshot set in
ascending `sn` order. -/
def setLeastUnrefSn (liveSns : List Nat) (leastUnrefSn : Nat) : Nat :=
  match liveSns with
  | [] => leastUnrefSn
  | s :: _ => s - 1

/-! ### `MemDB.NewSnapshot` -/

/-- A live snapshot record (`Snapshot`): stamp, reference count, item
count at creation. -/
structure MSnapshot where
  sn       : Nat
  refCount : Nat
  count    : Int
deriving Repr, DecidableEq

/-- Snapshot-related state of the database: `currSn` (a `uint32`, hence the
`% 2^32`), the live-snapshot set in `sn` order, each writer's pending
retired chain (`gchead..gctail`, in `wlist` order, node identifiers
abstract), and the live-item counter. -/
structure SnapState where
  currSn    : Nat
  snapshots : List MSnapshot
  wchains   : List (List Nat)
  count     : Int
deriving Repr, DecidableEq

/-- Ordered insertion into the live-snapshot set (`CompareSnapshot` orders
by `sn`). -/
def insertSnap (s : MSnapshot) : List MSnapshot → List MSnapshot
  | [] => [s]
  | e :: rest => if s.sn ≤ e.sn then s :: e :: rest else e :: insertSnap s rest

/-- `MemDB.NewSnapshot` (translated from the source): allocate a snapshot
stamped with the pre-increment `currSn` and `refCount` 1; insert it into the
live set; increment `currSn` (with `uint32` wrap-around); if the new value
is `math.MaxUint32` return the `ErrMaxSnapshotsLimitReached` error (`none`)
— at that point the insertion and the increment have already happened and
the writer chains are untouched; otherwise splice every writer's chain into
the snapshot's `gclist`, clear the writer chains, and return the snapshot
with its harvested list. -/
def NewSnapshot (st : SnapState) : SnapState × Option (MSnapshot × List Nat) :=
  let snap : MSnapshot := { sn := st.currSn, refCount := 1, count := st.count }
  let snapshots2 := insertSnap snap st.snapshots
  let newSn := (st.currSn + 1) % 2 ^ 32
  if newSn = 2 ^ 32 - 1 then
    let st2 := { st with
      snapshots := snapshots2
      currSn := newSn }
    (st2, none)
  else
    let st2 := { st with
      snapshots := snapshots2
      currSn := newSn
      wchains := st.wchains.map (fun _ => []) }
    (st2, some (snap, st.wchains.flatten))

/-! ### `MemDB.NewWriter` -/

/-- Writer-creation state: how many writers are linked on `wlist` and how
many collector tasks have been spawned. -/
structure WriterState where
  writers           : Nat
  collectorsStarted : Nat
deriving Repr, DecidableEq

/-- A fresh database: no writers, no collector task. -/
def freshWriterState : WriterState := ⟨0, 0⟩

/-- `MemDB.NewWriter` (translated from the source): link a new writer onto
`wlist` and spawn a `collectionWorker` task — the `go m.collectionWorker()`
statement runs on every call, unconditionally. -/
def NewWriter (st : WriterState) : WriterState :=
  { writers := st.writers + 1, collectorsStarted := st.collectorsStarted + 1 }

/-- The state after `n` `NewWriter` calls on a fresh database. -/
def newWriterCalls : Nat → WriterState
  | 0 => freshWriterState
  | n + 1 => NewWriter (newWriterCalls n)

/-! ### `MemDB.LoadFromDisk` -/

/-- Reading one shard file: open plus item reads, which may fail. -/
def readShards (shard : String → Except String (List Item)) :
    List String → Except String (List Item)
  | [] => Except.ok []
  | f :: rest =>
      match shard f, readShards shard rest with
      | Except.error e, _ => Except.error e
      | _, Except.error e => Except.error e
      | Except.ok xs, Except.ok ys => Except.ok (xs ++ ys)

/-- `MemDB.LoadFromDisk` (translated from the source).  `manifest` is the
outcome of `ioutil.ReadFile` on `<dir>/data/files.json` composed with
`json.Unmarshal`: `Except.error` when the file is missing/unreadable, and
`Except.ok none` when it was read but failed to parse — in that case the
source discards the `json.Unmarshal` error and `files` stays `nil`.  On
success the shards are read, the store is assembled from the resulting
segments, and a snapshot (stamped `currSn`) is returned. -/
def LoadFromDisk (manifest : Except String (Option (List String)))
    (shard : String → Except String (List Item)) (currSn : Nat) :
    Except String (List Item × Nat) :=
  match manifest with
  | Except.error e => Except.error e
  | Except.ok parsed =>
      let files := parsed.getD []
      match readShards shard files with
      | Except.error e => Except.error e
      | Except.ok items => Except.ok (items, currSn)

end Memdb

/-! ## Theorems -/

namespace Memdb

/-! ### Facts about `bytesCompare` and the comparators -/

theorem bytesCompare_self (a : List Nat) : bytesCompare a a = 0 := by
  induction a with
  | nil => rfl
  | cons x xs ih => simp [bytesCompare, ih]

theorem bytesCompare_eq_zero_iff (a b : List Nat) :
    bytesCompare a b = 0 ↔ a = b := by
  induction a generalizing b with
  | nil => cases b <;> simp [bytesCompare]
  | cons x xs ih =>
    cases b with
    | nil => simp [bytesCompare]
    | cons y ys =>
      by_cases hxy : x < y
      · simp [bytesCompare, hxy]
        intro h; omega
      · by_cases hyx : y < x
        · simp [bytesCompare, hxy, hyx]
          intro h; omega
        · have hxyeq : x = y := by omega
          simp [bytesCompare, hxy, hyx, hxyeq, ih]

theorem bytesCompare_antisymm (a b : List Nat) :
    bytesCompare b a = -bytesCompare a b := by
  induction a generalizing b with
  | nil => cases b <;> simp [bytesCompare]
  | cons x xs ih =>
    cases b with
    | nil => simp [bytesCompare]
    | cons y ys =>
      by_cases hxy : x < y
      · have : ¬ y < x := by omega
        simp [bytesCompare, hxy, this]
      · by_cases hyx : y < x
        · simp [bytesCompare, hxy, hyx]
        · simp [bytesCompare, hxy, hyx, ih]

theorem insCmp_le_key (a b : Item) (h : insCmp a b ≤ 0) :
    bytesCompare a.key b.key ≤ 0 := by
  unfold insCmp at h
  by_cases hk : bytesCompare a.key b.key = 0
  · omega
  · simpa [hk] using h

theorem insCmp_le_bornSn (a b : Item) (h : insCmp a b ≤ 0)
    (hk : a.key = b.key) : a.bornSn ≤ b.bornSn := by
  unfold insCmp at h
  rw [hk, bytesCompare_self] at h
  simp at h
  omega

theorem iterCmp_eq_zero_iff (a b : Item) : iterCmp a b = 0 ↔ a.key = b.key :=
  bytesCompare_eq_zero_iff a.key b.key

/-! ### C1: iteration yields exactly the visible items -/

theorem skipTest_eq_not_visible (snapSn : Nat) (itm : Item) :
    skipTest snapSn itm = !(visibleTo snapSn itm) := by
  have h : (skipTest snapSn itm = true) ↔ ¬ (visibleTo snapSn itm = true) := by
    simp [skipTest, visibleTo]
    omega
  cases hs : skipTest snapSn itm <;> cases hv : visibleTo snapSn itm <;>
    simp_all

theorem iterAll_eq_filter (snapSn : Nat) (l : List Item) :
    iterAll snapSn l = l.filter (visibleTo snapSn) := by
  rw [iterAll]
  split
  · rename_i heq
    have : l.filter (fun x => !(skipTest snapSn x)) = [] := by
      have hd : l.dropWhile (skipTest snapSn) = [] := heq
      have : ∀ x ∈ l, skipTest snapSn x = true := by
        intro x hx
        by_contra hfalse
        have := List.dropWhile_eq_nil_iff (l := l) (p := skipTest snapSn)
        rw [hd] at this
        simp at this
        exact hfalse (this x hx)
      simp [List.filter_eq_nil_iff]
      intro x hx
      have := this x hx
      simp [this]
    rw [show (visibleTo snapSn) = (fun x => !(skipTest snapSn x)) by
      funext x; rw [skipTest_eq_not_visible]; simp]
    exact this.symm
  · rename_i x rest heq
    have hsplit := List.takeWhile_append_dropWhile (p := skipTest snapSn) (l := l)
    rw [show l.dropWhile (skipTest snapSn) = x :: rest from heq] at hsplit
    have ih := iterAll_eq_filter snapSn rest
    rw [ih]
    conv_rhs => rw [← hsplit]
    rw [List.filter_append]
    have htake : (l.takeWhile (skipTest snapSn)).filter (visibleTo snapSn) = [] := by
      simp [List.filter_eq_nil_iff]
      intro a ha
      have := List.mem_takeWhile_imp ha
      rw [skipTest_eq_not_visible] at this
      simp at this
      simp [this]
    rw [htake]
    have hx : visibleTo snapSn x = true := by
      have : skipTest snapSn x = false := by
        have hd : l.dropWhile (skipTest snapSn) = x :: rest := heq
        have := List.head_dropWhile_not (p := skipTest snapSn) (l := l)
        rw [hd] at this
        simpa using this (by simp)
      rw [skipTest_eq_not_visible] at this
      simpa using this
    simp [List.filter_cons, hx]
termination_by l.length
decreasing_by
  rename_i heq2
  have hle : (skipUnwanted snapSn l).length ≤ l.length :=
    (List.dropWhile_sublist _).length_le
  rw [heq2] at hle
  simp at hle
  omega

/-- C1: iteration over a snapshot (`SeekFirst`/`Next`, each of which calls
`skipUnwanted`) yields an index item iff the item is visible to the
snapshot — `bornSn ≤ S.sn` and (`deadSn = 0` or `deadSn > S.sn`): the skip
test is exactly non-visibility, and a full pass returns exactly the visible
items in order. -/
theorem iteration_yields_exactly_visible (snapSn : Nat) (l : List Item) :
    (∀ itm : Item, skipTest snapSn itm = !(visibleTo snapSn itm)) ∧
    iterAll snapSn l = l.filter (visibleTo snapSn) :=
  ⟨fun itm => skipTest_eq_not_visible snapSn itm, iterAll_eq_filter snapSn l⟩

/-! ### C2: `GetNode` picks the most recent version of an equal-key run -/

theorem filter_eq_takeWhile_of_sorted (k : List Nat) (rest : List Item)
    (hs : rest.Pairwise (fun a b => bytesCompare a.key b.key ≤ 0))
    (hge : ∀ d ∈ rest, bytesCompare k d.key ≤ 0) :
    rest.filter (fun e => decide (e.key = k)) =
      rest.takeWhile (fun e => decide (e.key = k)) := by
  induction rest with
  | nil => rfl
  | cons d rs ih =>
    by_cases hd : d.key = k
    · have hs' := (List.pairwise_cons.mp hs).2
      have hge' : ∀ e ∈ rs, bytesCompare k e.key ≤ 0 := by
        intro e he
        have := (List.pairwise_cons.mp hs).1 e he
        rw [hd] at this
        exact this
      simp [List.filter_cons, List.takeWhile_cons, hd, ih hs' hge']
    · have hfil : rs.filter (fun e => decide (e.key = k)) = [] := by
        rw [List.filter_eq_nil_iff]
        intro e he
        simp only [decide_eq_true_eq]
        intro hek
        have h1 : bytesCompare k d.key ≤ 0 := hge d (by simp)
        have h2 : bytesCompare k d.key ≠ 0 := fun h0 =>
          hd ((bytesCompare_eq_zero_iff k d.key).mp h0).symm
        have h3 : bytesCompare d.key e.key ≤ 0 :=
          (List.pairwise_cons.mp hs).1 e he
        rw [hek] at h3
        rw [bytesCompare_antisymm k d.key] at h3
        omega
      simp [List.filter_cons, List.takeWhile_cons, hd, hfil]

theorem walkRun_eq_getLast (k : List Nat) (c : Item) (rest : List Item)
    (hc : c.key = k) :
    walkRun c rest =
      (c :: rest.takeWhile (fun e => decide (e.key = k))).getLast
        (List.cons_ne_nil _ _) := by
  induction rest generalizing c with
  | nil => simp [walkRun]
  | cons next rs ih =>
    by_cases hn : next.key = k
    · have hcmp : iterCmp next c = 0 := by
        rw [iterCmp_eq_zero_iff, hn, hc]
      rw [walkRun]
      simp only [hcmp, if_pos rfl]
      rw [ih next hn]
      simp [List.takeWhile_cons, hn]
    · have hcmp : iterCmp next c ≠ 0 := fun h0 =>
        hn (((iterCmp_eq_zero_iff next c).mp h0).trans hc)
      rw [walkRun]
      simp [hcmp, List.takeWhile_cons, hn]

theorem pairwise_rel_getLast {α : Type} (R : α → α → Prop) (l : List α)
    (hp : l.Pairwise R) (e : α) (he : e ∈ l) (last : α)
    (hl : l.getLast? = some last) : e = last ∨ R e last := by
  induction l with
  | nil => cases he
  | cons a t ih =>
    cases t with
    | nil =>
      simp at he hl
      left; rw [he, hl]
    | cons b t' =>
      have hl' : (b :: t').getLast? = some last := by
        rw [List.getLast?_cons_cons] at hl
        exact hl
      rcases List.mem_cons.mp he with he1 | he2
      · right
        have hlast_mem : last ∈ b :: t' := List.mem_of_getLast?_eq_some hl'
        rw [he1]
        exact (List.pairwise_cons.mp hp).1 last hlast_mem
      · exact ih (List.pairwise_cons.mp hp).2 he2 hl'

theorem dropWhile_head_not_pred {α : Type} (p : α → Bool) (l : List α)
    (x : α) (xs : List α) (h : l.dropWhile p = x :: xs) : p x = false := by
  induction l with
  | nil => simp at h
  | cons a t ih =>
    by_cases ha : p a
    · rw [List.dropWhile_cons_of_pos ha] at h
      exact ih h
    · rw [List.dropWhile_cons_of_neg ha] at h
      cases h
      simpa using ha

theorem getNode_spec (probe : Item) (l : List Item)
    (hsorted : insSorted l) :
    (eqKeyRun probe l = [] → GetNode probe l = none) ∧
    (∀ last, (eqKeyRun probe l).getLast? = some last →
       (∀ e ∈ eqKeyRun probe l, e.bornSn ≤ last.bornSn) ∧
       GetNode probe l = (if last.deadSn = 0 then some last else none)) := by
  have hpred : (fun e : Item => decide (iterCmp e probe = 0)) =
      (fun e : Item => decide (e.key = probe.key)) := by
    funext e
    simp [iterCmp_eq_zero_iff]
  have hsplit : eqKeyRun probe l = eqKeyRun probe (seekSuffix probe l) := by
    unfold eqKeyRun seekSuffix
    conv_lhs =>
      rw [← List.takeWhile_append_dropWhile
        (p := fun e => decide (iterCmp e probe < 0)) (l := l)]
    rw [List.filter_append]
    have hnil : (l.takeWhile fun e => decide (iterCmp e probe < 0)).filter
        (fun e => decide (iterCmp e probe = 0)) = [] := by
      rw [List.filter_eq_nil_iff]
      intro a ha
      have h1 := List.mem_takeWhile_imp ha
      simp at h1 ⊢
      omega
    rw [hnil, List.nil_append]
  have hsorted2 : insSorted (seekSuffix probe l) :=
    List.Pairwise.sublist (List.dropWhile_sublist _) hsorted
  cases hs : seekSuffix probe l with
  | nil =>
    have hrun : eqKeyRun probe l = [] := by
      rw [hsplit, hs]
      rfl
    constructor
    · intro _
      unfold GetNode
      rw [hs]
    · intro last hlast
      rw [hrun] at hlast
      simp at hlast
  | cons c rest =>
    have hnotlt : bytesCompare c.key probe.key ≥ 0 := by
      have hp := dropWhile_head_not_pred
        (fun e => decide (iterCmp e probe < 0)) l c rest hs
      simp [iterCmp] at hp
      exact hp
    rw [hs] at hsorted2
    have hpair := List.pairwise_cons.mp hsorted2
    by_cases hc0 : iterCmp c probe = 0
    · -- exact key match: the equal-key run starts at the cursor
      have hck : c.key = probe.key := (iterCmp_eq_zero_iff c probe).mp hc0
      have hkeysorted : rest.Pairwise
          (fun a b => bytesCompare a.key b.key ≤ 0) :=
        hpair.2.imp (fun hab => insCmp_le_key _ _ hab)
      have hge : ∀ d ∈ rest, bytesCompare probe.key d.key ≤ 0 := by
        intro d hd
        have h1 := insCmp_le_key c d (hpair.1 d hd)
        rw [hck] at h1
        exact h1
      have htw : eqKeyRun probe (c :: rest) =
          c :: rest.takeWhile (fun e => decide (e.key = probe.key)) := by
        unfold eqKeyRun
        rw [List.filter_cons]
        rw [hpred, filter_eq_takeWhile_of_sorted probe.key rest hkeysorted hge]
        simp [hc0]
      have hwalk := walkRun_eq_getLast probe.key c rest hck
      have hlastq : (eqKeyRun probe (c :: rest)).getLast? =
          some (walkRun c rest) := by
        rw [htw, hwalk]
        exact List.getLast?_eq_getLast _ _
      constructor
      · intro hnil
        rw [hsplit, hs, htw] at hnil
        simp at hnil
      · intro last hlast
        have hlw : last = walkRun c rest := by
          have h2 : some last = some (walkRun c rest) := by
            rw [← hlast, hsplit, hs, hlastq]
          exact Option.some.inj h2
        have hpfil : (eqKeyRun probe l).Pairwise
            (fun a b => insCmp a b ≤ 0) :=
          List.Pairwise.filter _ hsorted
        have hkeys : ∀ x ∈ eqKeyRun probe l, x.key = probe.key := by
          intro x hx
          have h3 := List.of_mem_filter hx
          simpa [iterCmp_eq_zero_iff] using h3
        have hlastmem : last ∈ eqKeyRun probe l :=
          List.mem_of_getLast?_eq_some hlast
        constructor
        · intro e he
          rcases pairwise_rel_getLast _ _ hpfil e he last hlast with he1 | he2
          · rw [he1]
          · exact insCmp_le_bornSn e last he2
              (by rw [hkeys e he, hkeys last hlastmem])
        · unfold GetNode
          rw [hs]
          simp only [hc0, ne_eq, not_true_eq_false, if_false,
            not_false_eq_true]
          rw [← hlw]
          by_cases hdead : last.deadSn = 0
          · simp [hdead]
          · simp [hdead]
    · -- cursor key strictly greater than the probe's: no equal-key entry
      have hnone : GetNode probe l = none := by
        unfold GetNode
        rw [hs]
        simp [hc0]
      have hrun : eqKeyRun probe l = [] := by
        rw [hsplit, hs]
        unfold eqKeyRun
        rw [List.filter_eq_nil_iff]
        intro e he
        simp only [decide_eq_true_eq]
        rcases List.mem_cons.mp he with he1 | he2
        · rw [he1]
          exact hc0
        · intro hez
          have hek : e.key = probe.key := (iterCmp_eq_zero_iff e probe).mp hez
          have hle : insCmp c e ≤ 0 := hpair.1 e he2
          have hkey : bytesCompare c.key e.key ≤ 0 := insCmp_le_key c e hle
          rw [hek] at hkey
          simp only [iterCmp] at hc0
          omega
      constructor
      · intro _
        exact hnone
      · intro last hlast
        rw [hrun] at hlast
        simp at hlast

/-- C2: `Writer.GetNode` seeks to the first entry with key ≥ the probe's;
when that entry's key equals the probe's it walks forward exactly while keys
are `iterCmp`-equal, selecting the last entry of the run — which has the
largest `bornSn` — and returns it iff its `deadSn` is 0; it returns none
when no equal-key entry exists. -/
theorem getNode_selects_last_live_version (probe : Item) (l : List Item)
    (hsorted : insSorted l) :
    (eqKeyRun probe l = [] → GetNode probe l = none) ∧
    (∀ last, (eqKeyRun probe l).getLast? = some last →
       (∀ e ∈ eqKeyRun probe l, e.bornSn ≤ last.bornSn) ∧
       GetNode probe l = (if last.deadSn = 0 then some last else none)) :=
  getNode_spec probe l hsorted

theorem getNode_selects_last_live_version_witness :
    insSorted [⟨[97], 1, 0⟩, ⟨[98], 1, 2⟩, ⟨[98], 3, 0⟩, ⟨[99], 4, 0⟩] ∧
    GetNode ⟨[98], 0, 0⟩
      [⟨[97], 1, 0⟩, ⟨[98], 1, 2⟩, ⟨[98], 3, 0⟩, ⟨[99], 4, 0⟩] =
      some ⟨[98], 3, 0⟩ := by
  constructor
  · unfold insSorted
    decide
  · have h := getNode_selects_last_live_version ⟨[98], 0, 0⟩
      [⟨[97], 1, 0⟩, ⟨[98], 1, 2⟩, ⟨[98], 3, 0⟩, ⟨[99], 4, 0⟩]
      (by unfold insSorted; decide)
    have h2 := (h.2 ⟨[98], 3, 0⟩ (by unfold eqKeyRun; decide)).2
    simpa using h2

/-! ### C3: the live-item counter -/

theorem Put2_count (st : DBState) (key : List Nat) :
    (Put2 st key).1.count =
      (if (Put2 st key).2 then st.count + 1 else st.count) := by
  simp only [Put2]

theorem DeleteNode_count (st : DBState) (n : Item) :
    (DeleteNode st n).1.count =
      (if (DeleteNode st n).2 = DelPath.failed then st.count
       else st.count - 1) := by
  unfold DeleteNode
  split_ifs <;> simp_all

theorem Delete2_count (st : DBState) (key : List Nat) :
    (Delete2 st key).1.count =
      (if (Delete2 st key).2 = DelPath.failed then st.count
       else st.count - 1) := by
  unfold Delete2
  split
  · simp
  · exact DeleteNode_count st _

theorem applyOp_count_invariant (st : DBState) (t : Tally) (op : Op) :
    (applyOp st t op).1.count + ((applyOp st t op).2.casDeads : Int) +
      ((applyOp st t op).2.fastDeads : Int) -
      ((applyOp st t op).2.putsOk : Int) =
    st.count + (t.casDeads : Int) + (t.fastDeads : Int) -
      (t.putsOk : Int) := by
  cases op with
  | put key =>
    have hc := Put2_count st key
    cases hput : (Put2 st key).2 <;>
      simp [applyOp, hput, hc] <;> push_cast <;> ring
  | del key =>
    have hc := Delete2_count st key
    cases hdel : (Delete2 st key).2 <;>
      simp [applyOp, hdel, hc] <;> push_cast <;> ring
  | newSnap =>
    simp [applyOp]

theorem runOps_count_invariant (ops : List Op) (st : DBState) (t : Tally) :
    (runOps st t ops).1.count + ((runOps st t ops).2.casDeads : Int) +
      ((runOps st t ops).2.fastDeads : Int) -
      ((runOps st t ops).2.putsOk : Int) =
    st.count + (t.casDeads : Int) + (t.fastDeads : Int) -
      (t.putsOk : Int) := by
  induction ops generalizing st t with
  | nil => simp [runOps]
  | cons op rest ih =>
    rw [runOps]
    rw [ih]
    exact applyOp_count_invariant st t op

/-- C3 counterexample: `Put("a")` then `Delete("a")` in the same sequence.
The delete succeeds through the fast path (born in the current sequence, so
physically removed, no `deadSn` CAS) and still decrements the counter, so
`ItemsCount` (0) differs from #successful-puts − #CAS-tombstones (1 − 0). -/
theorem itemsCount_claim_counterexample :
    (runOps initState Tally.init [Op.put [97], Op.del [97]]).1.count ≠
      ((runOps initState Tally.init [Op.put [97], Op.del [97]]).2.putsOk : Int) -
      ((runOps initState Tally.init [Op.put [97], Op.del [97]]).2.casDeads : Int) := by
  decide

/-- C3 (amended): after any sequence of operations starting from a fresh
database, `ItemsCount()` equals #successful inserts minus #successful
deletions — both first-time tombstone transitions (CAS `deadSn : 0 → sn`)
and same-sequence fast-path physical removals. -/
theorem itemsCount_eq_puts_minus_deletes (ops : List Op) :
    (runOps initState Tally.init ops).1.count =
      ((runOps initState Tally.init ops).2.putsOk : Int) -
      ((runOps initState Tally.init ops).2.casDeads : Int) -
      ((runOps initState Tally.init ops).2.fastDeads : Int) := by
  have h := runOps_count_invariant ops initState Tally.init
  have h0 : initState.count = 0 := rfl
  have h1 : Tally.init.casDeads = 0 := rfl
  have h2 : Tally.init.fastDeads = 0 := rfl
  have h3 : Tally.init.putsOk = 0 := rfl
  rw [h0, h1, h2, h3] at h
  push_cast at h
  omega

/-! ### C4: `existCmp` ignores tombstones -/

/-- C4: `existCmp` returns a non-zero result whenever either operand is
tombstoned and the key comparison otherwise; consequently, after a `Delete`
tombstones the live entry for a key, a `Put` of the same key in the same
sequence inserts successfully instead of being deduplicated against the
tombstoned node (run: Put k, NewSnapshot, Delete k, Put k — both puts
succeed). -/
theorem existCmp_ignores_tombstones :
    (∀ a b : Item,
      ((a.deadSn ≠ 0 ∨ b.deadSn ≠ 0) → existCmp a b ≠ 0) ∧
      (a.deadSn = 0 → b.deadSn = 0 →
        existCmp a b = bytesCompare a.key b.key)) ∧
    (runOps initState Tally.init
      [Op.put [107], Op.newSnap, Op.del [107], Op.put [107]]).2.putsOk = 2 := by
  constructor
  · intro a b
    constructor
    · intro h
      simp [existCmp, h]
    · intro h1 h2
      simp [existCmp, h1, h2]
  · decide

theorem existCmp_ignores_tombstones_witness :
    (⟨[107], 1, 2⟩ : Item).deadSn ≠ 0 ∧
    existCmp ⟨[107], 1, 2⟩ ⟨[107], 2, 0⟩ ≠ 0 :=
  ⟨by decide,
    (existCmp_ignores_tombstones.1 ⟨[107], 1, 2⟩ ⟨[107], 2, 0⟩).1
      (Or.inl (by decide))⟩

/-! ### C5: the GC pass -/

theorem collectDead_sorted (least : Nat) (l : List DeadSnap)
    (hs : l.Pairwise (fun a b => a.sn ≤ b.sn)) :
    collectDead least l =
      (l.filter (fun d => !decide (d.sn ≤ least)),
       (l.filter (fun d => decide (d.sn ≤ least))).map DeadSnap.gclist) := by
  induction l with
  | nil => rfl
  | cons d rest ih =>
    have hpair := List.pairwise_cons.mp hs
    by_cases hd : d.sn > least
    · have hall : rest.filter (fun e => !decide (e.sn ≤ least)) = rest := by
        rw [List.filter_eq_self]
        intro e he
        have := hpair.1 e he
        simp
        omega
      have hnil : rest.filter (fun e => decide (e.sn ≤ least)) = [] := by
        rw [List.filter_eq_nil_iff]
        intro e he
        have := hpair.1 e he
        simp
        omega
      have hdle : ¬ d.sn ≤ least := by omega
      rw [collectDead]
      simp [hd, List.filter_cons, hdle, hall, hnil]
    · have hdle : d.sn ≤ least := by omega
      rw [collectDead]
      simp [hd, List.filter_cons, hdle, ih hpair.2]

/-- C5: a GC pass is suppressed (promotes nothing, changes nothing) when
`leastUnrefSn` equals `lastGCSn` or is 0; otherwise it records
`lastGCSn = leastUnrefSn` and, scanning the dead-snapshot set in ascending
`sn`, enqueues `D.gclist` on the collector channel and removes `D` for every
dead snapshot `D` with `D.sn ≤ leastUnrefSn`, stopping at the first dead
snapshot with a larger stamp. -/
theorem gc_pass_spec (st : GCState)
    (hsorted : st.gcsnapshots.Pairwise (fun a b => a.sn ≤ b.sn)) :
    ((st.leastUnrefSn = st.lastGCSn ∨ st.leastUnrefSn = 0) →
       GC st = (st, [])) ∧
    (st.leastUnrefSn ≠ st.lastGCSn → st.leastUnrefSn ≠ 0 →
       (GC st).1.lastGCSn = st.leastUnrefSn ∧
       (GC st).1.leastUnrefSn = st.leastUnrefSn ∧
       (GC st).2 = (st.gcsnapshots.filter
           (fun d => decide (d.sn ≤ st.leastUnrefSn))).map DeadSnap.gclist ∧
       (GC st).1.gcsnapshots = st.gcsnapshots.filter
           (fun d => !decide (d.sn ≤ st.leastUnrefSn))) := by
  constructor
  · intro h
    unfold GC
    rcases h with h | h <;> simp [h]
  · intro h1 h2
    unfold GC
    have hcond : st.leastUnrefSn ≠ st.lastGCSn ∧ st.leastUnrefSn > 0 :=
      ⟨h1, by omega⟩
    rw [if_pos hcond]
    rw [collectDead_sorted st.leastUnrefSn st.gcsnapshots hsorted]
    simp

theorem gc_pass_spec_witness :
    ([⟨1, [10]⟩, ⟨3, [30]⟩] : List DeadSnap).Pairwise
      (fun a b => a.sn ≤ b.sn) ∧
    (GC ⟨0, 2, [⟨1, [10]⟩, ⟨3, [30]⟩]⟩).2 = [[10]] ∧
    (GC ⟨0, 2, [⟨1, [10]⟩, ⟨3, [30]⟩]⟩).1.lastGCSn = 2 := by
  refine ⟨by decide, ?_, ?_⟩
  · have h := (gc_pass_spec ⟨0, 2, [⟨1, [10]⟩, ⟨3, [30]⟩]⟩ (by decide)).2
      (by decide) (by decide)
    rw [h.2.2.1]
    decide
  · exact ((gc_pass_spec ⟨0, 2, [⟨1, [10]⟩, ⟨3, [30]⟩]⟩ (by decide)).2
      (by decide) (by decide)).1

/-! ### C6: `leastUnrefSn` is below every live snapshot -/

/-- C6: a recompute of `leastUnrefSn` stores the smallest live snapshot's
`sn − 1` and leaves the value unchanged when the live set is empty; hence
after every recompute `leastUnrefSn < S.sn` for every live snapshot `S`. -/
theorem setLeastUnrefSn_spec (liveSns : List Nat) (least : Nat)
    (hsorted : liveSns.Pairwise (fun a b => a ≤ b))
    (hpos : ∀ s ∈ liveSns, 1 ≤ s) :
    (∀ s rest, liveSns = s :: rest → setLeastUnrefSn liveSns least = s - 1) ∧
    (liveSns = [] → setLeastUnrefSn liveSns least = least) ∧
    (∀ s ∈ liveSns, setLeastUnrefSn liveSns least < s) := by
  cases liveSns with
  | nil =>
    refine ⟨?_, fun _ => rfl, ?_⟩
    · intro s rest h
      simp at h
    · intro s hs
      simp at hs
  | cons a t =>
    refine ⟨?_, ?_, ?_⟩
    · intro s rest h
      rw [setLeastUnrefSn]
      cases h
      rfl
    · intro h
      simp at h
    · intro s hs
      rw [setLeastUnrefSn]
      have ha : 1 ≤ a := hpos a (by simp)
      rcases List.mem_cons.mp hs with h1 | h2
      · omega
      · have := (List.pairwise_cons.mp hsorted).1 s h2
        omega

theorem setLeastUnrefSn_spec_witness :
    setLeastUnrefSn [3, 5] 7 < 3 ∧ setLeastUnrefSn [3, 5] 7 = 2 := by
  have h := setLeastUnrefSn_spec [3, 5] 7 (by decide) (by decide)
  exact ⟨h.2.2 3 (by decide), by decide⟩

/-! ### C7 and C9: `NewSnapshot` -/

theorem mem_insertSnap (s : MSnapshot) (l : List MSnapshot) :
    s ∈ insertSnap s l := by
  induction l with
  | nil => simp [insertSnap]
  | cons e rest ih =>
    rw [insertSnap]
    by_cases h : s.sn ≤ e.sn
    · simp [h]
    · simp [h, ih]

/-- C7: `NewSnapshot` fails with `ErrMaxSnapshotsLimitReached` exactly when
the atomic increment of `currSn` yields `math.MaxUint32 = 2^32 − 1`; in
every other case it returns a snapshot stamped with the pre-increment
`currSn` and `refCount` 1. -/
theorem newSnapshot_limit (st : SnapState) :
    ((NewSnapshot st).2 = none ↔ (st.currSn + 1) % 2 ^ 32 = 2 ^ 32 - 1) ∧
    (∀ snap gclist, (NewSnapshot st).2 = some (snap, gclist) →
      snap.sn = st.currSn ∧ snap.refCount = 1) := by
  unfold NewSnapshot
  dsimp only
  by_cases h : (st.currSn + 1) % 2 ^ 32 = 2 ^ 32 - 1
  · rw [if_pos h]
    refine ⟨⟨fun _ => h, fun _ => rfl⟩, ?_⟩
    intro snap gclist hsnap
    exact Option.noConfusion hsnap
  · rw [if_neg h]
    refine ⟨⟨fun hx => Option.noConfusion hx, fun hc => absurd hc h⟩, ?_⟩
    intro snap gclist hsnap
    have h2 := Option.some.inj hsnap
    have h3 : (⟨st.currSn, 1, st.count⟩ : MSnapshot) = snap :=
      congrArg Prod.fst h2
    rw [← h3]
    exact ⟨rfl, rfl⟩

theorem newSnapshot_limit_witness :
    (NewSnapshot ⟨1, [], [], 0⟩).2 = some (⟨1, 1, 0⟩, []) ∧
    (⟨1, 1, 0⟩ : MSnapshot).sn = 1 ∧
    (⟨1, 1, 0⟩ : MSnapshot).refCount = 1 := by
  have hsome : (NewSnapshot ⟨1, [], [], 0⟩).2 = some (⟨1, 1, 0⟩, []) := by
    decide
  have h := (newSnapshot_limit ⟨1, [], [], 0⟩).2 ⟨1, 1, 0⟩ [] hsome
  exact ⟨hsome, h.1, h.2⟩

/-- C9: when `NewSnapshot` returns the limit error, the database state has
nevertheless been mutated: the newly allocated snapshot (stamped with the
pre-increment `currSn`, `refCount` 1) stays inserted in the live-snapshot
set, `currSn` stays incremented, and no writer chain was harvested — the
failure is not atomic. -/
theorem newSnapshot_failure_not_atomic (st : SnapState)
    (herr : (NewSnapshot st).2 = none) :
    (NewSnapshot st).1.snapshots =
      insertSnap ⟨st.currSn, 1, st.count⟩ st.snapshots ∧
    (⟨st.currSn, 1, st.count⟩ : MSnapshot) ∈ (NewSnapshot st).1.snapshots ∧
    (NewSnapshot st).1.currSn = (st.currSn + 1) % 2 ^ 32 ∧
    (NewSnapshot st).1.wchains = st.wchains := by
  unfold NewSnapshot at herr ⊢
  dsimp only at herr ⊢
  by_cases h : (st.currSn + 1) % 2 ^ 32 = 2 ^ 32 - 1
  · rw [if_pos h]
    exact ⟨rfl, mem_insertSnap _ _, rfl, rfl⟩
  · rw [if_neg h] at herr
    exact Option.noConfusion herr

theorem newSnapshot_failure_not_atomic_witness :
    (NewSnapshot ⟨2 ^ 32 - 2, [], [[5]], 0⟩).2 = none ∧
    (NewSnapshot ⟨2 ^ 32 - 2, [], [[5]], 0⟩).1.wchains = [[5]] := by
  have herr : (NewSnapshot ⟨2 ^ 32 - 2, [], [[5]], 0⟩).2 = none := by
    decide
  exact ⟨herr, (newSnapshot_failure_not_atomic _ herr).2.2.2⟩

/-! ### C10: every `NewWriter` call spawns a collector -/

/-- C10 counterexample: after two `NewWriter` calls on a fresh database two
collector tasks have been spawned, not one — `go m.collectionWorker()` is
executed unconditionally on every call. -/
theorem newWriter_single_collector_counterexample :
    (newWriterCalls 2).collectorsStarted ≠ 1 := by
  decide

/-- C10 (amended): every `NewWriter` call starts a collector task: after `n`
calls on a fresh database, `n` collector tasks consume the retirement
channel (one per writer), not a single one. -/
theorem newWriter_starts_collector_every_call (n : Nat) :
    (newWriterCalls n).collectorsStarted = n ∧
    (newWriterCalls n).writers = n := by
  induction n with
  | zero => exact ⟨rfl, rfl⟩
  | succ k ih =>
    rw [newWriterCalls]
    unfold NewWriter
    simp [ih.1, ih.2]

/-! ### C8: `LoadFromDisk` and the manifest -/

/-- C8: a missing manifest (`ReadFile` error) is propagated and no snapshot
is returned; but a present-yet-unparseable manifest is NOT an error — the
`json.Unmarshal` failure is discarded, the file list stays empty, and the
load assembles an empty index and returns a snapshot over it, evaluated
here at that failing input. -/
theorem loadFromDisk_manifest_behavior (e : String)
    (shard : String → Except String (List Item)) (currSn : Nat) :
    LoadFromDisk (Except.error e) shard currSn = Except.error e ∧
    LoadFromDisk (Except.ok none) shard currSn = Except.ok ([], currSn) :=
  ⟨rfl, rfl⟩

end Memdb
